import Mathlib

/-!
Verification development for the metaetcd proxy server
(`internal/proxysvr/server.go`).  The definitions below are a shallow
embedding of the Go code: machine `int64` values are modelled as `Int`
with explicit reductions modulo `2^64` where the code casts through
`uint64`, byte slices are `List Nat`, and every network interaction is
made explicit as a function argument (the state observed) or a result
component (the effect produced).
-/

/-- Byte strings (Go `[]byte`); each entry is one byte. -/
abbrev Bytes := List Nat

/-- Little-endian encoding of `n` into `k` bytes, as written by
`binary.LittleEndian.PutUint64` (for `k = 8`). -/
def toBytesLE : Nat → Nat → Bytes
  | 0, _ => []
  | k + 1, n => (n % 256) :: toBytesLE k (n / 256)

/-- Little-endian decoding of a byte string, as read by
`binary.LittleEndian.Uint64` over the first bytes of a slice. -/
def fromBytesLE : Bytes → Nat
  | [] => 0
  | b :: bs => b % 256 + 256 * fromBytesLE bs

/-- Reinterpret a `uint64` bit pattern as the Go `int64` it denotes
(two's complement). -/
def toInt64 (n : Nat) : Int :=
  if n % 2 ^ 64 < 2 ^ 63 then ((n % 2 ^ 64 : Nat) : Int)
  else ((n % 2 ^ 64 : Nat) : Int) - 2 ^ 64

/-- The `uint64` bit pattern of a Go `int64` (the cast `uint64(x)`). -/
def uint64OfInt (x : Int) : Nat := (x % (2 ^ 64 : Int)).toNat

/-- An mvcc key-value pair; only the fields the proxy reads are kept. -/
structure KeyValue where
  key : Bytes
  value : Bytes
  modRevision : Int
  deriving DecidableEq

/-- Modelled from the spec: `scheme.MetaKey` is not under `src/`; the
spec describes it as a well-known reserved key holding the meta-rev.
Its concrete bytes are irrelevant to every claim. -/
def MetaKey : Bytes := [109, 101, 116, 97]

/-- Modelled from the spec: `scheme.ResolveModRev` is not under `src/`.
"If the value is ≥ 8 bytes, decode the last 8 bytes as meta-rev
(little-endian) and overwrite `kv.ModRevision` with it; truncate the
value to the original payload." -/
def ResolveModRev (kv : KeyValue) : KeyValue :=
  if 8 ≤ kv.value.length then
    { kv with
      modRevision := toInt64 (fromBytesLE (kv.value.drop (kv.value.length - 8)))
      value := kv.value.take (kv.value.length - 8) }
  else kv

/-- Modelled from the spec: `scheme.ResolveMetaRev` is not under `src/`.
"As above but returns the meta-rev." -/
def ResolveMetaRev (kv : KeyValue) : Int := (ResolveModRev kv).modRevision

/-- Decoding of one member's meta-clock value during clock
reconstitution (`server.go` lines 350‑357): a member with no kv, or a
value shorter than 8 bytes, contributes nothing; otherwise the first 8
bytes are decoded as a little-endian `int64`. -/
def decodeMemberVal : Option Bytes → Option Int
  | none => none
  | some v => if v.length < 8 then none else some (toInt64 (fromBytesLE (v.take 8)))

/-- `reconstituteClock` (`server.go` lines 333‑377), after the lock is
held.  Inputs: the coordinator's meta-clock kv as re-read under the
lock (double-check), and each member's meta-clock value.  Output: the
returned meta-rev, and the value written to the coordinator's
meta-clock key (`none` when nothing is written). -/
def reconstituteClock (coordKv : Option KeyValue) (memberVals : List (Option Bytes))
    (delta : Int) : Int × Option Bytes :=
  match coordKv with
  | some kv => (ResolveMetaRev kv, none)
  | none =>
    let latest := memberVals.foldl
      (fun acc v? =>
        match decodeMemberVal v? with
        | none => acc
        | some rev => if rev > acc then rev else acc) 0
    let T := latest + delta
    (T, some (toBytesLE 8 (uint64OfInt (T - 1))))

/-- `now` (`server.go` lines 322‑331): `coordKv` is the coordinator's
meta-clock kv as first read; `coordKvLocked` is the kv as re-read inside
`reconstituteClock` after acquiring the lock. -/
def nowModel (coordKv coordKvLocked : Option KeyValue)
    (memberVals : List (Option Bytes)) : Int :=
  match coordKv with
  | some kv => ResolveMetaRev kv
  | none => (reconstituteClock coordKvLocked memberVals 0).1

/-- `tick` (`server.go` lines 308‑320): `txnKv` is the kv returned by
the put-then-get transaction on the coordinator (`none` models the
coordinator reporting `ErrKeyNotFound`). -/
def tickModel (txnKv coordKvLocked : Option KeyValue)
    (memberVals : List (Option Bytes)) : Int :=
  match txnKv with
  | some kv => ResolveMetaRev kv
  | none => (reconstituteClock coordKvLocked memberVals 1).1

/-- The claim-side description of `M`: the maximum of the members'
decoded meta-clock values, `0` when no member holds one. -/
def maxDecodedMetaRev (memberVals : List (Option Bytes)) : Int :=
  (memberVals.filterMap decodeMemberVal).foldl max 0

/-! ## Revision resolver (`getMemberRev`, `server.go` lines 379‑407) -/

/-- One write to a member's meta-clock key: the member-local mod-rev of
the write and the stored value. -/
structure ClockEntry where
  modRev : Int
  value : Bytes
  deriving DecidableEq

/-- The member's meta-clock key history, most recent write first.
Reading the key as-of rev `z` (the code adds `WithRev(zeroKeyRev)` only
when `zeroKeyRev > 0`) returns the most recent write with mod-rev
`≤ z`; with no probe it returns the latest write. -/
def memberGetAt (hist : List ClockEntry) (z : Int) : Option ClockEntry :=
  if 0 < z then hist.find? (fun e => decide (e.modRev ≤ z)) else hist.head?

/-- The probe loop of `getMemberRev`, with explicit fuel.  `hdr` is the
member's current header revision (returned when the key is absent), `M`
the target meta-rev, and `z` the probed mod-rev (`zeroKeyRev`, initially
`0` meaning "no probe"). -/
def gmrLoop (hist : List ClockEntry) (hdr M : Int) : Nat → Int → Option Int
  | 0, _ => none
  | n + 1, z =>
    match memberGetAt hist z with
    | none => some hdr
    | some e =>
      let lastMetaRev := toInt64 (fromBytesLE (e.value.take 8))
      if M < lastMetaRev then gmrLoop hist hdr M n (e.modRev - 1)
      else some e.modRev

/-- Termination of the probe loop: some finite fuel suffices. -/
def gmrTerminates (hist : List ClockEntry) (hdr M : Int) : Prop :=
  ∃ n, (gmrLoop hist hdr M n 0).isSome

/-- A member history on which the probe loop cycles forever: a single
clock-write at mod-rev 1 whose recorded meta-rev (5) exceeds the target
(3).  The probe becomes `1 - 1 = 0`, which the code treats as "no
probe", so the same kv is read again. -/
def cycleHist : List ClockEntry := [⟨1, toBytesLE 8 5⟩]

/-! ## Txn translation (`server.go` lines 218‑306) -/

/-- A comparison target; only `ModRevision` targets are treated
specially by the proxy, all other target kinds are carried opaquely. -/
inductive CmpTarget where
  | modRevision (rev : Int)
  | other
  deriving DecidableEq

/-- The comparison result relation of an etcd `Compare`. -/
inductive CmpResult where
  | equal
  | greater
  | less
  | notEqual
  deriving DecidableEq

/-- An etcd `Compare`: relation, compared key, and target. -/
structure Cmp where
  result : CmpResult
  key : Bytes
  target : CmpTarget
  deriving DecidableEq

/-- A transaction operation; only the referenced key (and, for puts,
the value) matter to the proxy. -/
inductive RequestOp where
  | put (key : Bytes) (value : Bytes)
  | range (key : Bytes)
  | deleteRange (key : Bytes)
  deriving DecidableEq

/-- An etcd `TxnRequest`. -/
structure TxnRequest where
  compare : List Cmp
  success : List RequestOp
  failure : List RequestOp
  deriving DecidableEq

/-- An inner response of a `TxnResponse`. -/
inductive ResponseOp where
  | putResp (headerRev : Int) (prevKv : Option KeyValue)
  | rangeResp (headerRev : Int) (kvs : List KeyValue)
  | deleteResp (headerRev : Int) (prevKvs : List KeyValue)
  deriving DecidableEq

/-- An etcd `TxnResponse`. -/
structure TxnResponse where
  headerRev : Int
  succeeded : Bool
  responses : List ResponseOp
  deriving DecidableEq

/-- The proxy's only locally produced Txn error. -/
inductive TxnErr where
  | crossShard
  deriving DecidableEq

/-- The key referenced by a transaction operation. -/
def opKey : RequestOp → Bytes
  | .put k _ => k
  | .range k => k
  | .deleteRange k => k

/-- All keys referenced by a transaction, in the order the three
validators walk them (comparisons, then success ops, then failure
ops). -/
def txnRefKeys (req : TxnRequest) : List Bytes :=
  req.compare.map Cmp.key ++ req.success.map opKey ++ req.failure.map opKey

/-- Modelled from the spec: `scheme.ValidateTxComparisons` and
`scheme.ValidateTxOps` are not under `src/`.  "Verify that every key
referenced by the transaction hashes to the same single owning key (the
first key encountered becomes the txn's anchor); fail with
`invalid-cross-shard-txn` otherwise.  Return that anchor key."  The
accumulator is the anchor found so far. -/
def validateKeys : Option Bytes → List Bytes → Except TxnErr (Option Bytes)
  | acc, [] => .ok acc
  | none, k :: ks => validateKeys (some k) ks
  | some a, k :: ks =>
    if k = a then validateKeys (some a) ks else .error .crossShard

/-- The three validation calls at the top of `Txn` (`server.go` lines
220‑231), threading the anchor key through comparisons, success ops and
failure ops. -/
def validateTxn (req : TxnRequest) : Except TxnErr (Option Bytes) :=
  validateKeys none (txnRefKeys req)

/-- All keys in the list resolve to the same single anchor key. -/
def allSameKeys (l : List Bytes) : Prop := ∀ k ∈ l, ∀ k2 ∈ l, k = k2

instance (l : List Bytes) : Decidable (allSameKeys l) := by
  unfold allSameKeys
  infer_instance

/-- Whether an etcd comparison with the given relation holds between
the actual mod-revision and the comparison's target revision. -/
def cmpHolds (res : CmpResult) (target actual : Int) : Bool :=
  match res with
  | .equal => actual = target
  | .greater => target < actual
  | .less => actual < target
  | .notEqual => actual ≠ target

/-- Modelled from the spec: `scheme.PreflightTxn` is not under `src/`.
"Given the member's current value for the anchor key, decide whether
the txn's meta-rev comparisons would succeed.  If any comparison is
provably false, synthesize a failure `TxnResponse` with
`Succeeded = false` and revision `metaRev`."  The actual meta-rev of
the live kv is its decoded value suffix; comparisons whose target
meta-rev is zero are not meta-rev comparisons and are not checked.
Returns the actual mod meta-rev and the synthesized failure response,
if any. -/
def PreflightTxn (metaRev : Int) (req : TxnRequest) (kv : KeyValue) :
    Int × Option TxnResponse :=
  let actual := ResolveMetaRev kv
  if req.compare.all (fun c =>
      match c.target with
      | .modRevision r => if r = 0 then true else cmpHolds c.result r actual
      | .other => true) then
    (actual, none)
  else
    (actual, some { headerRev := metaRev, succeeded := false, responses := [] })

/-- `resolveModComparison` (`server.go` lines 435‑451).  `kv?` is the
member's current kv for the anchor key.  Returns the member-local
mod-rev to substitute and the synthesized failure response, if any. -/
def resolveModComparison (kv? : Option KeyValue) (metaRev : Int)
    (req : TxnRequest) : Int × Option TxnResponse :=
  match kv? with
  | none => (0, none)
  | some kv =>
    match PreflightTxn metaRev req kv with
    | (_, some failureResp) => (0, some failureResp)
    | (_, none) => (kv.modRevision, none)

/-- The comparison-rewriting loop of `Txn` (`server.go` lines 235‑251).
Go mutates the comparisons in place, so `PreflightTxn` sees earlier
comparisons already rewritten: `done` holds the rewritten prefix and
`todo` the unprocessed suffix, and the request passed down carries
`done ++ todo` as its current comparison list.  Returns the
short-circuit response (if any) and the comparison list as left when
the loop stops. -/
def resolveLoop (kv? : Option KeyValue) (sop fop : List RequestOp)
    (done : List Cmp) : List Cmp → Option TxnResponse × List Cmp
  | [] => (none, done)
  | c :: cs =>
    match c.target with
    | .other => resolveLoop kv? sop fop (done ++ [c]) cs
    | .modRevision r =>
      if r = 0 then resolveLoop kv? sop fop (done ++ [c]) cs
      else
        match resolveModComparison kv? r ⟨done ++ c :: cs, sop, fop⟩ with
        | (_, some resp) => (some resp, done ++ c :: cs)
        | (memberRev, none) =>
          resolveLoop kv? sop fop
            (done ++ [{ c with target := .modRevision memberRev }]) cs

/-- Modelled from the spec: `scheme.AppendMetaRevToTxOps` is not under
`src/`.  "For each put op in `ops`, append the 8-byte `buf` to its
value." -/
def AppendMetaRevToTxOps (buf : Bytes) (ops : List RequestOp) : List RequestOp :=
  ops.map fun op =>
    match op with
    | .put k v => .put k (v ++ buf)
    | o => o

/-- Steps 4‑5 of `Txn` (`server.go` lines 257‑271): suffix every put in
both branches with `buf` and append the clock-write op to both
branches. -/
def txnPrepare (buf : Bytes) (req : TxnRequest) : TxnRequest :=
  { compare := req.compare
    success := AppendMetaRevToTxOps buf req.success ++ [.put MetaKey buf]
    failure := AppendMetaRevToTxOps buf req.failure ++ [.put MetaKey buf] }

/-- The response rewriting of `Txn` (`server.go` lines 278‑295).  Note
that a `ResponseDeleteRange`'s header revision is assigned inside the
loop over its `PrevKvs`, so it is updated only when `PrevKvs` is
non-empty. -/
def txnRewriteResp (metaRev : Int) (resp : TxnResponse) : TxnResponse :=
  { headerRev := metaRev
    succeeded := resp.succeeded
    responses := resp.responses.map fun r =>
      match r with
      | .putResp _ prevKv => .putResp metaRev (prevKv.map ResolveModRev)
      | .rangeResp h kvs => .rangeResp h (kvs.map ResolveModRev)
      | .deleteResp h prevKvs =>
        .deleteResp (if prevKvs.isEmpty then h else metaRev)
          (prevKvs.map ResolveModRev) }

/-- The environment a single `Txn` call observes: the member's current
kv for the anchor key (read by each `resolveModComparison`), the
meta-rev the coordinator's clock would yield on `tick`, and the
response the member returns when the prepared transaction is executed
on it. -/
structure TxnEnv where
  anchorKv : Option KeyValue
  tickVal : Int
  memberResp : TxnResponse
  deriving DecidableEq

instance instDecEqExcept {ε α : Type} [DecidableEq ε] [DecidableEq α] :
    DecidableEq (Except ε α)
  | .error a, .error b =>
    if h : a = b then .isTrue (congrArg Except.error h)
    else .isFalse (fun hc => h (Except.error.inj hc))
  | .error _, .ok _ => .isFalse (fun hc => Except.noConfusion hc)
  | .ok _, .error _ => .isFalse (fun hc => Except.noConfusion hc)
  | .ok a, .ok b =>
    if h : a = b then .isTrue (congrArg Except.ok h)
    else .isFalse (fun hc => h (Except.ok.inj hc))

/-- What a single `Txn` call does: its result, whether the clock was
ticked, and the transaction executed on the member (`none` when
nothing was sent). -/
structure TxnTrace where
  result : Except TxnErr TxnResponse
  ticked : Bool
  memberTxn : Option TxnRequest
  deriving DecidableEq

/-- `Txn` (`server.go` lines 218‑306): validate, rewrite mod-revision
comparisons (short-circuiting on a preflight failure), tick, prepare
and execute on the member, rewrite the member's response. -/
def serverTxn (env : TxnEnv) (req : TxnRequest) : TxnTrace :=
  match validateTxn req with
  | .error e => ⟨.error e, false, none⟩
  | .ok _ =>
    match resolveLoop env.anchorKv req.success req.failure [] req.compare with
    | (some resp, _) => ⟨.ok resp, false, none⟩
    | (none, cmps) =>
      let buf := toBytesLE 8 (uint64OfInt env.tickVal)
      let prepared := txnPrepare buf ⟨cmps, req.success, req.failure⟩
      ⟨.ok (txnRewriteResp env.tickVal env.memberResp), true, some prepared⟩

/-! ## Range limit handling and LeaseGrant -/

/-- `bytes.Compare` on byte strings. -/
def bytesCmp : Bytes → Bytes → Ordering
  | [], [] => .eq
  | [], _ :: _ => .lt
  | _ :: _, [] => .gt
  | a :: as, b :: bs =>
    if a < b then .lt else if b < a then .gt else bytesCmp as bs

/-- The comparator passed to `sort.Slice` (`server.go` line 123):
`bytes.Compare(kvs[i].Key, kvs[j].Key) < 0`. -/
def kvKeyLess (a b : KeyValue) : Prop := bytesCmp a.key b.key = .lt

instance : DecidableRel kvKeyLess := fun a b => by
  unfold kvKeyLess; infer_instance

/-- The limit handling after the range fan-out (`server.go` lines
121‑126): when `Limit != 0` and the merged kvs exceed it, sort by raw
key bytes and truncate to `Limit`, setting `More`.  `none` models the
Go runtime panic raised by `resp.Kvs[:req.Limit]` when `Limit` is
negative. -/
def rangeFinalize (limit : Int) (kvs : List KeyValue) :
    Option (List KeyValue × Bool) :=
  if limit ≠ 0 ∧ limit < (kvs.length : Int) then
    if 0 ≤ limit then
      some ((List.insertionSort kvKeyLess kvs).take limit.toNat, true)
    else none
  else some (kvs, false)

/-- `LeaseGrant` (`server.go` lines 409‑433): the ids sent to the
members and the returned `(ID, TTL)` (`none` on any member error).
`randVal` is the value `rand.Int63()` produced for this call, and
`memberErrs` records, per member, whether its `LeaseGrant` failed. -/
structure LeaseTrace where
  sentIds : List Int
  result : Option (Int × Int)
  deriving DecidableEq

/-- The lease id in a request together with its TTL. -/
structure LeaseGrantReq where
  id : Int
  ttl : Int
  deriving DecidableEq

/-- `LeaseGrant` body: assign `rand.Int63()` when the request id is 0,
fan the same request out to every member, fail on any member error,
and return the id and TTL. -/
def leaseGrant (req : LeaseGrantReq) (randVal : Int)
    (memberErrs : List Bool) : LeaseTrace :=
  let id := if req.id = 0 then randVal else req.id
  { sentIds := memberErrs.map fun _ => id
    result := if memberErrs.any (· = true) then none else some (id, req.ttl) }

/-! ## Helper lemmas -/

lemma recon_fold_eq_max (l : List (Option Bytes)) (a : Int) :
    l.foldl
      (fun acc v? =>
        match decodeMemberVal v? with
        | none => acc
        | some rev => if rev > acc then rev else acc) a
    = (l.filterMap decodeMemberVal).foldl max a := by
  induction l generalizing a with
  | nil => rfl
  | cons v l ih =>
    cases h : decodeMemberVal v with
    | none => simp [List.foldl_cons, List.filterMap_cons, h, ih]
    | some rev =>
      simp only [List.foldl_cons, List.filterMap_cons, h, ih]
      congr 1
      rcases le_or_lt rev a with hle | hlt
      · simp [max_eq_left hle, not_lt.mpr hle]
      · simp [max_eq_right hlt.le, hlt]

lemma foldl_max_le_init (l : List Int) (a : Int) : a ≤ l.foldl max a := by
  induction l generalizing a with
  | nil => simp
  | cons x l ih => exact le_trans (le_max_left a x) (ih (max a x))

lemma mem_of_memberGetAt {hist : List ClockEntry} {z : Int} {e : ClockEntry}
    (h : memberGetAt hist z = some e) : e ∈ hist := by
  unfold memberGetAt at h
  split at h
  · exact List.mem_of_find?_eq_some h
  · cases hist with
    | nil => simp at h
    | cons a t =>
      have ha : a = e := by simpa using h
      rw [← ha]
      exact List.mem_cons_self a t

lemma modRev_le_of_memberGetAt_pos {hist : List ClockEntry} {z : Int}
    {e : ClockEntry} (hz : 0 < z) (h : memberGetAt hist z = some e) :
    e.modRev ≤ z := by
  unfold memberGetAt at h
  rw [if_pos hz] at h
  simpa using List.find?_some h

lemma gmr_term_from_pos (hist : List ClockEntry) (hdr M : Int)
    (hmin : ∀ e ∈ hist, 2 ≤ e.modRev) :
    ∀ k : Nat, ∀ z : Int, 0 < z → z.toNat ≤ k →
      ∃ n, (gmrLoop hist hdr M n z).isSome := by
  intro k
  induction k with
  | zero => intro z hz hk; omega
  | succ k ih =>
    intro z hz hk
    cases hget : memberGetAt hist z with
    | none => exact ⟨1, by simp [gmrLoop, hget]⟩
    | some e =>
      by_cases hL : M < toInt64 (fromBytesLE (e.value.take 8))
      · have h2 := hmin e (mem_of_memberGetAt hget)
        have hle := modRev_le_of_memberGetAt_pos hz hget
        obtain ⟨n, hn⟩ := ih (e.modRev - 1) (by omega) (by omega)
        exact ⟨n + 1, by simpa [gmrLoop, hget, hL] using hn⟩
      · exact ⟨1, by simp [gmrLoop, hget, hL]⟩

lemma gmrLoop_cycleHist (n : Nat) : gmrLoop cycleHist 0 3 n 0 = none := by
  induction n with
  | zero => rfl
  | succ n ih =>
    have hstep : gmrLoop cycleHist 0 3 (n + 1) 0 = gmrLoop cycleHist 0 3 n 0 := by
      simp [gmrLoop, memberGetAt, cycleHist, toBytesLE, fromBytesLE, toInt64]
    rw [hstep, ih]

/-! ## Claim theorems -/

/-- C1: after acquiring the coordinator lock, `reconstituteClock` with
delta `d` returns the decoded value without writing when the meta-clock
key is present; otherwise it computes `M` as the maximum of the
members' decoded meta-clock values (0 when no member holds one), writes
`M + d - 1` as an 8-byte little-endian value to the coordinator's
meta-clock key, and returns `M + d`.  `tick()` invokes it with `d = 1`
on key-not-found, `now()` with `d = 0` when the key is absent. -/
theorem reconstituteClock_spec :
    (∀ kv vals d, reconstituteClock (some kv) vals d = (ResolveMetaRev kv, none)) ∧
    (∀ vals d, reconstituteClock none vals d
      = (maxDecodedMetaRev vals + d,
         some (toBytesLE 8 (uint64OfInt (maxDecodedMetaRev vals + d - 1))))) ∧
    (∀ c vals, tickModel none c vals = (reconstituteClock c vals 1).1) ∧
    (∀ c vals, nowModel none c vals = (reconstituteClock c vals 0).1) := by
  refine ⟨fun kv vals d => rfl, fun vals d => ?_, fun c vals => rfl, fun c vals => rfl⟩
  simp only [reconstituteClock, maxDecodedMetaRev, recon_fold_eq_max]

/-- C2 (counterexample): the probe loop of `getMemberRev` does not
terminate on every member state with nonnegative mod-revs.  On a member
whose only clock-write sits at mod-rev 1 and records meta-rev 5, with
target meta-rev 3, the probe becomes 0, which the code treats as "no
probe": the same kv is read forever. -/
theorem getMemberRev_cycles : ¬ gmrTerminates cycleHist 0 3 := by
  rintro ⟨n, hn⟩
  rw [gmrLoop_cycleHist] at hn
  simp at hn

/-- C2 (amended): the probe loop of `getMemberRev` terminates for every
target meta-rev on every member state whose stored mod-revs are all at
least 2 — which etcd guarantees, since a fresh store is at revision 1
and every write gets a mod-rev ≥ 2.  Each probing iteration then
strictly decreases the probed mod-rev until the read comes back empty
or a clock-write at or below the target is found. -/
theorem getMemberRev_terminates (hist : List ClockEntry) (hdr M : Int)
    (hmin : ∀ e ∈ hist, 2 ≤ e.modRev) : gmrTerminates hist hdr M := by
  cases hget : memberGetAt hist 0 with
  | none => exact ⟨1, by simp [gmrLoop, hget]⟩
  | some e =>
    by_cases hL : M < toInt64 (fromBytesLE (e.value.take 8))
    · have h2 := hmin e (mem_of_memberGetAt hget)
      obtain ⟨n, hn⟩ :=
        gmr_term_from_pos hist hdr M hmin (e.modRev - 1).toNat (e.modRev - 1)
          (by omega) le_rfl
      exact ⟨n + 1, by simpa [gmrLoop, hget, hL] using hn⟩
    · exact ⟨1, by simp [gmrLoop, hget, hL]⟩

/-- C2 (witness): the amended theorem applied to a concrete history
with a single clock-write at mod-rev 2. -/
theorem getMemberRev_terminates_witness : gmrTerminates [⟨2, []⟩] 0 5 :=
  getMemberRev_terminates [⟨2, []⟩] 0 5 (by decide)

/-- C8 (counterexample): on a fresh system — coordinator meta-clock key
absent, no member meta-clock values — `now()` goes through
`reconstituteClock(delta = 0)` and returns `0 + 0 = 0`, which is not
`≥ 1`. -/
theorem now_fresh_returns_zero :
    nowModel none none [] = 0 ∧ ¬ (1 ≤ nowModel none none []) := by
  constructor
  · rfl
  · decide

/-- C8 (amended): every meta-rev produced by `tick()` through
`reconstituteClock` (delta = 1) is at least 1, for any member
meta-clock values; but `now()` on a fresh system returns 0 (see the
counterexample), so not every value returned by `now()` is ≥ 1. -/
theorem tick_reconstitute_ge_one (vals : List (Option Bytes)) :
    1 ≤ (reconstituteClock none vals 1).1 := by
  have h0 : (0 : Int) ≤ (vals.filterMap decodeMemberVal).foldl max 0 :=
    foldl_max_le_init _ 0
  simp only [reconstituteClock, recon_fold_eq_max]
  omega

/-! ## Txn helper lemmas -/

lemma resolveModComparison_some {kv? : Option KeyValue} {r : Int}
    {req : TxnRequest} {m : Int} {resp : TxnResponse}
    (h : resolveModComparison kv? r req = (m, some resp)) :
    resp = ⟨r, false, []⟩ := by
  cases kv? with
  | none => simp [resolveModComparison] at h
  | some kv =>
    by_cases hall : (req.compare.all fun c =>
        match c.target with
        | CmpTarget.modRevision r2 =>
          if r2 = 0 then true else cmpHolds c.result r2 (ResolveMetaRev kv)
        | CmpTarget.other => true) = true
    · have hpf : PreflightTxn r req kv = (ResolveMetaRev kv, none) := by
        unfold PreflightTxn
        rw [if_pos hall]
      have hred : resolveModComparison (some kv) r req = (kv.modRevision, none) := by
        rw [show resolveModComparison (some kv) r req
            = (match PreflightTxn r req kv with
               | (_, some failureResp) => (0, some failureResp)
               | (_, none) => (kv.modRevision, none)) from rfl, hpf]
      rw [hred] at h
      exact absurd (congrArg Prod.snd h) (by simp)
    · have hpf : PreflightTxn r req kv
          = (ResolveMetaRev kv, some ⟨r, false, []⟩) := by
        unfold PreflightTxn
        rw [if_neg hall]
      have hred : resolveModComparison (some kv) r req
          = (0, some ⟨r, false, []⟩) := by
        rw [show resolveModComparison (some kv) r req
            = (match PreflightTxn r req kv with
               | (_, some failureResp) => (0, some failureResp)
               | (_, none) => (kv.modRevision, none)) from rfl, hpf]
      rw [hred] at h
      exact (Option.some.inj (congrArg Prod.snd h)).symm

lemma resolveLoop_shortCircuit {kv? : Option KeyValue} {sop fop : List RequestOp} :
    ∀ {todo done : List Cmp} {resp : TxnResponse} {rest : List Cmp},
      resolveLoop kv? sop fop done todo = (some resp, rest) →
      ∃ c ∈ todo, ∃ r : Int, c.target = .modRevision r ∧ r ≠ 0 ∧
        resp = ⟨r, false, []⟩ := by
  intro todo
  induction todo with
  | nil => intro done resp rest h; simp [resolveLoop] at h
  | cons c cs ih =>
    intro done resp rest h
    obtain ⟨cres, ckey, ctgt⟩ := c
    cases ctgt with
    | other =>
      obtain ⟨c', hc', hrest⟩ := ih h
      exact ⟨c', List.mem_cons_of_mem _ hc', hrest⟩
    | modRevision r =>
      by_cases hr : r = 0
      · subst hr
        simp only [resolveLoop, if_pos rfl] at h
        obtain ⟨c', hc', hrest⟩ := ih h
        exact ⟨c', List.mem_cons_of_mem _ hc', hrest⟩
      · simp only [resolveLoop, if_neg hr] at h
        cases hm : resolveModComparison kv? r ⟨done ++ ⟨cres, ckey, .modRevision r⟩ :: cs, sop, fop⟩ with
        | mk mv o =>
          cases o with
          | none =>
            rw [hm] at h
            obtain ⟨c', hc', hrest⟩ := ih h
            exact ⟨c', List.mem_cons_of_mem _ hc', hrest⟩
          | some fr =>
            rw [hm] at h
            have h1 : fr = resp := by
              have := congrArg Prod.fst h
              simpa using this
            subst h1
            exact ⟨⟨cres, ckey, .modRevision r⟩, List.mem_cons_self _ _,
              r, rfl, hr, resolveModComparison_some hm⟩

lemma resolveLoop_cons_other (kv? : Option KeyValue) (sop fop : List RequestOp)
    (done : List Cmp) (cres : CmpResult) (ckey : Bytes) (cs : List Cmp) :
    resolveLoop kv? sop fop done (⟨cres, ckey, .other⟩ :: cs)
      = resolveLoop kv? sop fop (done ++ [⟨cres, ckey, .other⟩]) cs := rfl

lemma resolveLoop_cons_zero (kv? : Option KeyValue) (sop fop : List RequestOp)
    (done : List Cmp) (cres : CmpResult) (ckey : Bytes) (cs : List Cmp) :
    resolveLoop kv? sop fop done (⟨cres, ckey, .modRevision 0⟩ :: cs)
      = resolveLoop kv? sop fop (done ++ [⟨cres, ckey, .modRevision 0⟩]) cs := by
  simp [resolveLoop]

lemma resolveLoop_cons_none_anchor (sop fop : List RequestOp) (done : List Cmp)
    (cres : CmpResult) (ckey : Bytes) (r : Int) (cs : List Cmp) (hr : r ≠ 0) :
    resolveLoop none sop fop done (⟨cres, ckey, .modRevision r⟩ :: cs)
      = resolveLoop none sop fop (done ++ [⟨cres, ckey, .modRevision 0⟩]) cs := by
  simp [resolveLoop, hr, resolveModComparison]

lemma resolveLoop_none_anchor (sop fop : List RequestOp) :
    ∀ (todo done : List Cmp),
      (∀ c ∈ done, ∀ r : Int, c.target = .modRevision r → r = 0) →
      ∃ out, resolveLoop none sop fop done todo = (none, out) ∧
        ∀ c ∈ out, ∀ r : Int, c.target = .modRevision r → r = 0 := by
  intro todo
  induction todo with
  | nil => intro done hd; exact ⟨done, rfl, hd⟩
  | cons c cs ih =>
    intro done hd
    obtain ⟨cres, ckey, ctgt⟩ := c
    have hext : ∀ tgt : CmpTarget, (∀ r : Int, tgt = .modRevision r → r = 0) →
        ∀ c2 ∈ done ++ [(⟨cres, ckey, tgt⟩ : Cmp)], ∀ r : Int,
          c2.target = .modRevision r → r = 0 := by
      intro tgt htgt c2 hc2 r hr
      rcases List.mem_append.mp hc2 with h1 | h1
      · exact hd c2 h1 r hr
      · have he : c2 = ⟨cres, ckey, tgt⟩ := by simpa using h1
        rw [he] at hr
        exact htgt r hr
    cases ctgt with
    | other =>
      rw [resolveLoop_cons_other]
      exact ih _ (hext .other (fun r hr => by cases hr))
    | modRevision r =>
      by_cases hr0 : r = 0
      · subst hr0
        rw [resolveLoop_cons_zero]
        exact ih _ (hext (.modRevision 0) (fun r hr => by cases hr; rfl))
      · rw [resolveLoop_cons_none_anchor sop fop done cres ckey r cs hr0]
        exact ih _ (hext (.modRevision 0) (fun r hr => by cases hr; rfl))

/-- C3 (amended): for every Txn that passes validation and whose
comparison-resolution loop short-circuits on a preflight failure, the
server returns the synthesized `TxnResponse` with `Succeeded = false`
whose header revision equals the failing comparison's (non-zero) target
meta-rev — the clock is never ticked, so there is no "tick value" — and
no transaction is sent to the member. -/
theorem txn_preflight_shortCircuit (env : TxnEnv) (req : TxnRequest)
    (a : Option Bytes) (resp : TxnResponse) (rest : List Cmp)
    (hval : validateTxn req = .ok a)
    (hres : resolveLoop env.anchorKv req.success req.failure [] req.compare
      = (some resp, rest)) :
    serverTxn env req = ⟨.ok resp, false, none⟩ ∧
    resp.succeeded = false ∧ resp.responses = [] ∧
    ∃ c ∈ req.compare, ∃ r : Int, c.target = .modRevision r ∧ r ≠ 0 ∧
      resp.headerRev = r := by
  obtain ⟨c, hc, r, htgt, hr0, hresp⟩ := resolveLoop_shortCircuit hres
  subst hresp
  exact ⟨by simp [serverTxn, hval, hres], rfl, rfl, c, hc, r, htgt, hr0, rfl⟩

/-- C3 (witness): the short-circuit theorem applied to a concrete
request whose equality comparison targets meta-rev 4 while the live kv
carries meta-rev 7. -/
theorem txn_preflight_shortCircuit_witness :
    validateTxn ⟨[⟨.equal, [0], .modRevision 4⟩], [.put [0] [9]], []⟩
      = .ok (some [0]) ∧
    resolveLoop (some ⟨[0], [1, 2] ++ toBytesLE 8 7, 33⟩) [.put [0] [9]] [] []
      [⟨.equal, [0], .modRevision 4⟩]
      = (some ⟨4, false, []⟩, [⟨.equal, [0], .modRevision 4⟩]) ∧
    (serverTxn ⟨some ⟨[0], [1, 2] ++ toBytesLE 8 7, 33⟩, 100, ⟨0, true, []⟩⟩
        ⟨[⟨.equal, [0], .modRevision 4⟩], [.put [0] [9]], []⟩
      = ⟨.ok ⟨4, false, []⟩, false, none⟩ ∧
      (⟨4, false, []⟩ : TxnResponse).succeeded = false ∧
      (⟨4, false, []⟩ : TxnResponse).responses = [] ∧
      ∃ c ∈ [(⟨.equal, [0], .modRevision 4⟩ : Cmp)], ∃ r : Int,
        c.target = .modRevision r ∧ r ≠ 0 ∧
        (⟨4, false, []⟩ : TxnResponse).headerRev = r) :=
  ⟨by decide, by decide,
    txn_preflight_shortCircuit ⟨some ⟨[0], [1, 2] ++ toBytesLE 8 7, 33⟩, 100, ⟨0, true, []⟩⟩
      ⟨[⟨.equal, [0], .modRevision 4⟩], [.put [0] [9]], []⟩
      (some [0]) ⟨4, false, []⟩ [⟨.equal, [0], .modRevision 4⟩]
      (by decide) (by decide)⟩

/-- C3 (counterexample): on the concrete preflight-failing request, the
synthesized response's header revision is 4 — the comparison's target
meta-rev — while the clock is never ticked (the environment's tick
value, 100, appears nowhere), so the claim "header revision equals the
tick value" is false. -/
theorem txn_preflight_revision_not_tick :
    serverTxn ⟨some ⟨[0], [1, 2] ++ toBytesLE 8 7, 33⟩, 100, ⟨0, true, []⟩⟩
        ⟨[⟨.equal, [0], .modRevision 4⟩], [.put [0] [9]], []⟩
      = ⟨.ok ⟨4, false, []⟩, false, none⟩ ∧ (4 : Int) ≠ 100 := by
  exact ⟨by decide, by decide⟩

/-- C4: whenever a transaction is sent to the member, both its success
and failure branches contain a put to the member's meta-clock key whose
value is exactly the 8-byte little-endian encoding of the meta-rev
obtained from `tick()`, and every put op originally present in either
branch has that same 8-byte buffer appended to its value. -/
theorem txn_clockWrite (env : TxnEnv) (req : TxnRequest) (t : TxnRequest)
    (h : (serverTxn env req).memberTxn = some t) :
    (RequestOp.put MetaKey (toBytesLE 8 (uint64OfInt env.tickVal)) ∈ t.success ∧
     RequestOp.put MetaKey (toBytesLE 8 (uint64OfInt env.tickVal)) ∈ t.failure) ∧
    (∀ (i : Nat) (k v : Bytes), req.success[i]? = some (RequestOp.put k v) →
      t.success[i]? = some (RequestOp.put k (v ++ toBytesLE 8 (uint64OfInt env.tickVal)))) ∧
    (∀ (i : Nat) (k v : Bytes), req.failure[i]? = some (RequestOp.put k v) →
      t.failure[i]? = some (RequestOp.put k (v ++ toBytesLE 8 (uint64OfInt env.tickVal)))) := by
  unfold serverTxn at h
  cases hval : validateTxn req with
  | error e => rw [hval] at h; simp at h
  | ok a =>
    rw [hval] at h
    cases hres : resolveLoop env.anchorKv req.success req.failure [] req.compare with
    | mk o cmps =>
      rw [hres] at h
      cases o with
      | some resp => simp at h
      | none =>
        simp only [Option.some.injEq] at h
        subst h
        refine ⟨⟨?_, ?_⟩, ?_, ?_⟩
        · simp [txnPrepare]
        · simp [txnPrepare]
        · intro i k v hi
          have hlt : i < req.success.length := by
            by_contra hc
            push_neg at hc
            rw [List.getElem?_eq_none hc] at hi
            cases hi
          have hg : req.success[i] = RequestOp.put k v := by
            rw [List.getElem?_eq_getElem hlt] at hi
            exact Option.some.inj hi
          simp [txnPrepare, AppendMetaRevToTxOps, List.getElem?_append, hlt, hi, hg]
        · intro i k v hi
          have hlt : i < req.failure.length := by
            by_contra hc
            push_neg at hc
            rw [List.getElem?_eq_none hc] at hi
            cases hi
          have hg : req.failure[i] = RequestOp.put k v := by
            rw [List.getElem?_eq_getElem hlt] at hi
            exact Option.some.inj hi
          simp [txnPrepare, AppendMetaRevToTxOps, List.getElem?_append, hlt, hi, hg]

/-- C4 (witness): the clock-write theorem applied to a concrete
transaction with one put op and tick value 7. -/
theorem txn_clockWrite_witness :
    (serverTxn ⟨none, 7, ⟨0, true, []⟩⟩ ⟨[], [.put [3] [9]], []⟩).memberTxn
      = some ⟨[], [.put [3] ([9] ++ toBytesLE 8 (uint64OfInt 7)),
                    .put MetaKey (toBytesLE 8 (uint64OfInt 7))],
              [.put MetaKey (toBytesLE 8 (uint64OfInt 7))]⟩ ∧
    ((RequestOp.put MetaKey (toBytesLE 8 (uint64OfInt 7))
        ∈ [RequestOp.put [3] ([9] ++ toBytesLE 8 (uint64OfInt 7)),
           RequestOp.put MetaKey (toBytesLE 8 (uint64OfInt 7))] ∧
      RequestOp.put MetaKey (toBytesLE 8 (uint64OfInt 7))
        ∈ [RequestOp.put MetaKey (toBytesLE 8 (uint64OfInt 7))]) ∧
     (∀ (i : Nat) (k v : Bytes),
        [RequestOp.put [3] [9]][i]? = some (RequestOp.put k v) →
       [RequestOp.put [3] ([9] ++ toBytesLE 8 (uint64OfInt 7)),
        RequestOp.put MetaKey (toBytesLE 8 (uint64OfInt 7))][i]?
         = some (RequestOp.put k (v ++ toBytesLE 8 (uint64OfInt 7)))) ∧
     (∀ (i : Nat) (k v : Bytes),
        ([] : List RequestOp)[i]? = some (RequestOp.put k v) →
       [RequestOp.put MetaKey (toBytesLE 8 (uint64OfInt 7))][i]?
         = some (RequestOp.put k (v ++ toBytesLE 8 (uint64OfInt 7))))) :=
  ⟨by decide,
    txn_clockWrite ⟨none, 7, ⟨0, true, []⟩⟩ ⟨[], [.put [3] [9]], []⟩
      ⟨[], [.put [3] ([9] ++ toBytesLE 8 (uint64OfInt 7)),
            .put MetaKey (toBytesLE 8 (uint64OfInt 7))],
       [.put MetaKey (toBytesLE 8 (uint64OfInt 7))]⟩ (by decide)⟩

lemma validateKeys_ok_all_eq {a : Bytes} :
    ∀ {l : List Bytes} {x : Option Bytes},
      validateKeys (some a) l = .ok x → ∀ k ∈ l, k = a := by
  intro l
  induction l with
  | nil => intro x h k hk; cases hk
  | cons k0 ks ih =>
    intro x h k hk
    by_cases hk0 : k0 = a
    · subst hk0
      simp only [validateKeys, if_pos rfl] at h
      rcases List.mem_cons.mp hk with h1 | h1
      · exact h1
      · exact ih h k h1
    · simp only [validateKeys, if_neg hk0] at h
      cases h

/-- C6: for every Txn whose compared or mutated keys do not all resolve
to the same single anchor key, the RPC fails with
`invalid-cross-shard-txn`, before the clock is ticked and before any
request is issued to a member. -/
theorem txn_crossShard (env : TxnEnv) (req : TxnRequest)
    (h : ¬ allSameKeys (txnRefKeys req)) :
    serverTxn env req = ⟨.error .crossShard, false, none⟩ := by
  have hv : validateTxn req = .error .crossShard := by
    unfold validateTxn
    cases hl : txnRefKeys req with
    | nil =>
      rw [hl] at h
      exact absurd (fun k hk => absurd hk (List.not_mem_nil k)) h
    | cons k0 ks =>
      cases hres : validateKeys (some k0) ks with
      | ok x =>
        exfalso
        apply h
        rw [hl]
        intro p hp q hq
        have hall := validateKeys_ok_all_eq hres
        have hp2 : p = k0 := by
          rcases List.mem_cons.mp hp with h1 | h1
          · exact h1
          · exact hall p h1
        have hq2 : q = k0 := by
          rcases List.mem_cons.mp hq with h1 | h1
          · exact h1
          · exact hall q h1
        rw [hp2, hq2]
      | error e =>
        cases e
        rw [show validateKeys none (k0 :: ks) = validateKeys (some k0) ks from rfl,
          hres]
  simp [serverTxn, hv]

/-- C6 (witness): the cross-shard theorem applied to a transaction
putting the two distinct keys `[0]` and `[1]`. -/
theorem txn_crossShard_witness :
    ¬ allSameKeys (txnRefKeys ⟨[], [.put [0] [], .put [1] []], []⟩) ∧
    serverTxn ⟨none, 0, ⟨0, true, []⟩⟩ ⟨[], [.put [0] [], .put [1] []], []⟩
      = ⟨.error .crossShard, false, none⟩ :=
  ⟨by decide, txn_crossShard ⟨none, 0, ⟨0, true, []⟩⟩
    ⟨[], [.put [0] [], .put [1] []], []⟩ (by decide)⟩

/-- C7 (amended): in the rewritten response of an executed Txn, the
top-level header revision equals `metaRev`, and every inner
`ResponseDeleteRange` has its `PrevKvs` mod-revisions resolved; its
sub-header revision is set to `metaRev` when `PrevKvs` is non-empty but
left unchanged when `PrevKvs` is empty (the assignment sits inside the
loop over `PrevKvs`). -/
theorem txn_rewrite_deleteRange (metaRev : Int) (resp : TxnResponse) (i : Nat)
    (hdr : Int) (pkvs : List KeyValue)
    (h : resp.responses[i]? = some (.deleteResp hdr pkvs)) :
    (txnRewriteResp metaRev resp).headerRev = metaRev ∧
    (txnRewriteResp metaRev resp).responses[i]?
      = some (.deleteResp (if pkvs.isEmpty then hdr else metaRev)
          (pkvs.map ResolveModRev)) := by
  constructor
  · rfl
  · simp [txnRewriteResp, h]

/-- C7 (witness): the rewrite theorem applied to a response with one
delete-range sub-response holding one prev kv. -/
theorem txn_rewrite_deleteRange_witness :
    ((⟨7, true, [.deleteResp 55 [⟨[1], [2], 3⟩]]⟩ : TxnResponse).responses[0]?
      = some (.deleteResp 55 [⟨[1], [2], 3⟩])) ∧
    ((txnRewriteResp 9 ⟨7, true, [.deleteResp 55 [⟨[1], [2], 3⟩]]⟩).headerRev = 9 ∧
     (txnRewriteResp 9 ⟨7, true, [.deleteResp 55 [⟨[1], [2], 3⟩]]⟩).responses[0]?
      = some (.deleteResp (if ([⟨[1], [2], 3⟩] : List KeyValue).isEmpty then 55 else 9)
          ([⟨[1], [2], 3⟩].map ResolveModRev))) :=
  ⟨by decide, txn_rewrite_deleteRange 9 ⟨7, true, [.deleteResp 55 [⟨[1], [2], 3⟩]]⟩
    0 55 [⟨[1], [2], 3⟩] (by decide)⟩

/-- C7 (counterexample): a delete-range sub-response with empty
`PrevKvs` keeps its original header revision 55 instead of being set to
the meta-rev 9, so "the sub-response's header revision is set to
metaRev whatever its PrevKvs" is false. -/
theorem txn_rewrite_deleteRange_empty_prevKvs :
    txnRewriteResp 9 ⟨7, true, [.deleteResp 55 []]⟩
      = ⟨9, true, [.deleteResp 55 []]⟩ ∧ (55 : Int) ≠ 9 := by
  exact ⟨by decide, by decide⟩

/-- C10: for every Txn that passes validation, when the anchor key does
not exist on the owning member no mod-revision comparison causes a
preflight failure: the transaction proceeds to tick and execution on
the member, and every `ModRevision` comparison in the executed
transaction carries target 0. -/
theorem txn_absent_anchor (env : TxnEnv) (req : TxnRequest) (a : Option Bytes)
    (hkv : env.anchorKv = none) (hval : validateTxn req = .ok a) :
    ∃ t, (serverTxn env req).memberTxn = some t ∧
      (serverTxn env req).ticked = true ∧
      ∀ c ∈ t.compare, ∀ r : Int, c.target = .modRevision r → r = 0 := by
  obtain ⟨out, hout, hP⟩ :=
    resolveLoop_none_anchor req.success req.failure req.compare []
      (fun c hc => absurd hc (List.not_mem_nil c))
  refine ⟨txnPrepare (toBytesLE 8 (uint64OfInt env.tickVal))
      ⟨out, req.success, req.failure⟩, ?_, ?_, ?_⟩
  · simp [serverTxn, hval, hkv, hout]
  · simp [serverTxn, hval, hkv, hout]
  · intro c hc r hr
    exact hP c (by simpa [txnPrepare] using hc) r hr

/-- C10 (witness): the absent-anchor theorem applied to a transaction
comparing `ModRevision([0]) = 5` while the member holds no kv for
`[0]`. -/
theorem txn_absent_anchor_witness :
    ((⟨none, 7, ⟨0, true, []⟩⟩ : TxnEnv).anchorKv = none) ∧
    validateTxn ⟨[⟨.equal, [0], .modRevision 5⟩], [.put [0] [9]], []⟩
      = .ok (some [0]) ∧
    ∃ t, (serverTxn ⟨none, 7, ⟨0, true, []⟩⟩
        ⟨[⟨.equal, [0], .modRevision 5⟩], [.put [0] [9]], []⟩).memberTxn = some t ∧
      (serverTxn ⟨none, 7, ⟨0, true, []⟩⟩
        ⟨[⟨.equal, [0], .modRevision 5⟩], [.put [0] [9]], []⟩).ticked = true ∧
      ∀ c ∈ t.compare, ∀ r : Int, c.target = .modRevision r → r = 0 :=
  ⟨rfl, by decide,
    txn_absent_anchor ⟨none, 7, ⟨0, true, []⟩⟩
      ⟨[⟨.equal, [0], .modRevision 5⟩], [.put [0] [9]], []⟩ (some [0]) rfl (by decide)⟩

/-- C5: the limit handling evaluated at a failing and at a passing
input.  With `Limit = 1` and two kvs keyed `[98]` and `[97]`, the code
sorts by raw key bytes, truncates to the lexicographically smallest
key, and sets `More`.  With `Limit = -1` and one kv, the code still
enters the branch (the condition is `Limit != 0`, not `Limit > 0`) and
evaluates `resp.Kvs[:-1]`, a negative slice bound that panics at run
time (modelled as `none`). -/
theorem range_limit_behavior :
    rangeFinalize 1 [⟨[98], [], 0⟩, ⟨[97], [], 0⟩] = some ([⟨[97], [], 0⟩], true) ∧
    rangeFinalize (-1) [⟨[97], [], 0⟩] = none := by
  exact ⟨by decide, by decide⟩

/-- C9 (amended): for every LeaseGrant request with ID = 0, the server
assigns the value produced by `rand.Int63()` — which is not guaranteed
to be non-zero — sends that same id in the grant request to every
member, and returns it as the ID (with the request's TTL) unless some
member reports an error. -/
theorem leaseGrant_same_id_broadcast (ttl randVal : Int) (memberErrs : List Bool) :
    (leaseGrant ⟨0, ttl⟩ randVal memberErrs).sentIds
      = memberErrs.map (fun _ => randVal) ∧
    (leaseGrant ⟨0, ttl⟩ randVal memberErrs).result
      = if memberErrs.any (· = true) then none else some (randVal, ttl) := by
  constructor <;> simp [leaseGrant]

/-- C9 (counterexample): `rand.Int63()` can return 0, and the code does
not retry: with random value 0 the assigned lease id is 0, which is
sent to both members and returned — contradicting "assigns a random
non-zero lease id". -/
theorem leaseGrant_assigns_zero_id :
    (leaseGrant ⟨0, 5⟩ 0 [false, false]).sentIds = [0, 0] ∧
    (leaseGrant ⟨0, 5⟩ 0 [false, false]).result = some (0, 5) := by
  exact ⟨by decide, by decide⟩
